import Mathlib

/-!
Verification development for the multi-signal bug-localization core
(`scripts/agents/judge_agent.py`, `scripts/agents/bug_type_classifier.py`,
`scripts/agents/test_failure_agent.py`, `scripts/bug_localizer.py`).

Python floats are modelled as exact rationals (`ℚ`); `math.log` and
`math.sqrt` appear through `Real.log` / `Real.sqrt` on the real numbers.
Python dicts keyed by strings are modelled either as association lists
(`List (String × α)`, keys unique as dict keys are) or as `String → Option α`
maps; `d.get(k, 0.0)` becomes `(m k).getD 0`.
-/

namespace BugLoc

/-! ### Stable sorting

Python `list.sort(key=..., reverse=True)` (and `sort(key=lambda x: -x[1])`)
is a *stable* sort: elements with equal keys keep their original relative
order.  We model it with a stable insertion sort on a descending key. -/

/-- Insert `x` into `l` keeping a descending key order: `x` is placed before
the first element whose key is `≤ key x`, hence after every earlier element
with a strictly greater key and before every element with an equal key. -/
def insertD {α β : Type} [LinearOrder β] (key : α → β) (x : α) : List α → List α
  | [] => [x]
  | y :: ys => if key x < key y then y :: insertD key x ys else x :: y :: ys

/-- Stable sort by descending key (model of Python's stable `list.sort` with
`reverse=True` on the key). -/
def sortD {α β : Type} [LinearOrder β] (key : α → β) : List α → List α
  | [] => []
  | x :: xs => insertD key x (sortD key xs)

/-! ### Judge agent (`scripts/agents/judge_agent.py`)

`AgentScore.agent_name` and the `evidence` string lists are carried by the
Python dataclass but never read by any computation below; we keep `score`
and `confidence`.  The `explanation` string (built by `_generate_explanation`
from float formatting) is likewise inessential to every property here and is
elided from the judgment record. -/

/-- `AgentScore` (score and confidence of one signal for one candidate). -/
structure AgentScore where
  score : ℚ
  confidence : ℚ
  deriving DecidableEq, Repr

/-- `CandidateJudgment` (dataclass of `judge_agent.py`, minus the
explanation string). -/
structure CandidateJudgment where
  class_name : String
  final_score : ℚ
  agent_scores : List (String × AgentScore)
  consensus : Bool
  conflict_resolved : Bool
  rank : ℕ
  deriving DecidableEq, Repr

/-- `JudgmentResult` (dataclass of `judge_agent.py`). -/
structure JudgmentResult where
  candidates : List CandidateJudgment
  bug_type : String
  weights_used : List (String × ℚ)
  consensus_rate : ℚ
  deriving DecidableEq, Repr

/-- Association-list lookup, model of Python `dict[k]` / `dict.get` over a
dict with unique keys. -/
def alookup {α : Type} : List (String × α) → String → Option α
  | [], _ => none
  | (k, v) :: ps, s => if k = s then some v else alookup ps s

/-- `JudgeAgent.DEFAULT_WEIGHTS`. -/
def DEFAULT_WEIGHTS : List (String × ℚ) :=
  [("stack_trace", 35/100), ("bm25", 30/100), ("pattern", 20/100), ("test", 15/100)]

/-- Sum of the values of a weight dict (`sum(self.weights.values())`). -/
def wsum (w : List (String × ℚ)) : ℚ := (w.map Prod.snd).sum

/-- `JudgeAgent._normalize_weights`: divide every weight by the total when
the total is positive; otherwise the dict is left unchanged (note: the code
has no error path for a zero-sum profile). -/
def normalizeWeights (w : List (String × ℚ)) : List (String × ℚ) :=
  if 0 < wsum w then w.map (fun p => (p.1, p.2 / wsum w)) else w

/-- Population mean of a list (`sum(scores)/len(scores)`). -/
def lmean (l : List ℚ) : ℚ := l.sum / l.length

/-- Population variance of a list
(`sum((s-mean)**2 for s in scores)/len(scores)`). -/
def popVar (l : List ℚ) : ℚ :=
  (l.map (fun s => (s - lmean l) ^ 2)).sum / l.length

/-- `JudgeAgent._check_consensus`.  The code filters the four signal scores
to those `> 0`, computes their population standard deviation
`std = sqrt(variance)` (with `std = 0` when `variance = 0`), and returns
`(std < 0.2, False)`, `(False, std > 0.4)` or `(False, False)`.  Because the
variance is nonnegative and `sqrt` is strictly monotone, `std < 0.2` is
exactly `variance < 0.04` and `std > 0.4` is exactly `variance > 0.16`;
the embedding compares the variance against the squared thresholds, which
keeps it inside `ℚ` (the equivalence with the `sqrt` form is proved in
`check_consensus_stddev`). -/
def checkConsensus (scores : List ℚ) : Bool × Bool :=
  let pos := scores.filter (fun s => 0 < s)
  if pos = [] then (false, false)
  else if popVar pos < 1/25 then (true, false)
  else if popVar pos > 4/25 then (false, true)
  else (false, false)

/-- The per-candidate signal table built at the top of the loop in
`JudgeAgent.judge`: score defaulted to `0.0`, fixed per-signal confidence
(stack trace `1.0` if the candidate is a key of the map else `0.5`;
BM25 `0.8`; pattern `0.7`; test `0.6`). -/
def agentScoresFor (st bm pat tst : String → Option ℚ) (c : String) :
    List (String × AgentScore) :=
  [("stack_trace", ⟨(st c).getD 0, if (st c).isSome then 1 else 1/2⟩),
   ("bm25", ⟨(bm c).getD 0, 8/10⟩),
   ("pattern", ⟨(pat c).getD 0, 7/10⟩),
   ("test", ⟨(tst c).getD 0, 6/10⟩)]

/-- `JudgeAgent._calculate_final_score`: weighted sum of
`weight * score * confidence` over the four signals, `×1.10` on consensus,
`×0.95` on resolved conflict, then `min(·, 1.0)` (an upper cap only). -/
def calculateFinalScore (weights : List (String × ℚ))
    (ascores : List (String × AgentScore))
    (consensus conflictResolved : Bool) : ℚ :=
  let weightedSum :=
    (ascores.map (fun p => ((alookup weights p.1).getD 0) * p.2.score * p.2.confidence)).sum
  let weightedSum := if consensus then weightedSum * (1 + 10/100) else weightedSum
  let weightedSum := if conflictResolved then weightedSum * (95/100) else weightedSum
  min weightedSum 1

/-- One iteration of the candidate loop of `JudgeAgent.judge` (rank is set
to `0` here and assigned after sorting, as in the dataclass default). -/
def mkJudgment (weights : List (String × ℚ)) (st bm pat tst : String → Option ℚ)
    (c : String) : CandidateJudgment :=
  let ascores := agentScoresFor st bm pat tst c
  let cc := checkConsensus (ascores.map (fun p => p.2.score))
  { class_name := c
    final_score := calculateFinalScore weights ascores cc.1 cc.2
    agent_scores := ascores
    consensus := cc.1
    conflict_resolved := cc.2
    rank := 0 }

/-- The rank-assignment loop (`judgment.rank = i + 1` over the sorted list);
the first argument generalizes the initial index 1. -/
def setRanks : ℕ → List CandidateJudgment → List CandidateJudgment
  | _, [] => []
  | i, j :: js => { j with rank := i } :: setRanks (i + 1) js

/-- `JudgeAgent.judge`: build a judgment per candidate, stable-sort by final
score descending, assign ranks 1.., compute the consensus rate. -/
def judge (weights : List (String × ℚ)) (candidates : List String)
    (st bm pat tst : String → Option ℚ) (bug_type : String) : JudgmentResult :=
  let judgments := candidates.map (mkJudgment weights st bm pat tst)
  let sorted := sortD (fun j => j.final_score) judgments
  let ranked := setRanks 1 sorted
  { candidates := ranked
    bug_type := bug_type
    weights_used := weights
    consensus_rate :=
      if candidates = [] then 0
      else ((judgments.filter (fun j => j.consensus)).length : ℚ) / candidates.length }

/-- Clamping to the unit interval (the operation the specification ascribes
to the fusion step; the code's `min(weighted_sum, 1.0)` coincides with it
only on nonnegative inputs). -/
def clamp01 (q : ℚ) : ℚ := max 0 (min q 1)

/-! ### Bug type classifier (`scripts/agents/bug_type_classifier.py`) -/

/-- `BugClassification` (dataclass).  The `indicators` list holds raw regex
match strings from the external `re` library and is not modelled. -/
structure BugClassification where
  bug_type : String
  confidence : ℚ
  weights : List (String × ℚ)
  deriving DecidableEq, Repr

/-- `BugTypeClassifier.WEIGHT_PROFILES`. -/
def WEIGHT_PROFILES : List (String × List (String × ℚ)) :=
  [("NPE", [("stack_trace", 35/100), ("bm25", 25/100), ("pattern", 25/100), ("test", 15/100)]),
   ("CCE", [("stack_trace", 30/100), ("bm25", 30/100), ("pattern", 25/100), ("test", 15/100)]),
   ("CME", [("stack_trace", 35/100), ("bm25", 20/100), ("pattern", 30/100), ("test", 15/100)]),
   ("AIOBE", [("stack_trace", 40/100), ("bm25", 25/100), ("pattern", 20/100), ("test", 15/100)]),
   ("IAE", [("stack_trace", 30/100), ("bm25", 30/100), ("pattern", 20/100), ("test", 20/100)]),
   ("ISE", [("stack_trace", 30/100), ("bm25", 25/100), ("pattern", 25/100), ("test", 20/100)]),
   ("IOE", [("stack_trace", 35/100), ("bm25", 30/100), ("pattern", 15/100), ("test", 20/100)]),
   ("GENERIC", [("stack_trace", 35/100), ("bm25", 30/100), ("pattern", 20/100), ("test", 15/100)])]

/-- `BugTypeClassifier.get_weights`:
`WEIGHT_PROFILES.get(bug_type, WEIGHT_PROFILES['GENERIC'])`. -/
def getWeights (bug_type : String) : List (String × ℚ) :=
  (alookup WEIGHT_PROFILES bug_type).getD
    [("stack_trace", 35/100), ("bm25", 30/100), ("pattern", 20/100), ("test", 15/100)]

/-- Python `max(scores, key=scores.get)` over a dict in iteration order:
the first key attaining the maximal count wins (`max` replaces the running
best only on a strictly greater value). -/
def argmaxFirst : List (String × ℕ) → String × ℕ
  | [] => ("GENERIC", 0)
  | [p] => p
  | p :: q :: ps => let r := argmaxFirst (q :: ps); if r.2 > p.2 then r else p

/-- `BugTypeClassifier.classify`, lines 168-205, as a function of the
per-category regex match counts (`scores`, in the fixed iteration order of
`BUG_PATTERNS`: NPE, CCE, CME, AIOBE, IAE, ISE, IOE).  The counting itself
(`pattern.findall` of the external `re` library) stays outside the model.
When no pattern matched, the result is GENERIC with confidence 0.5;
otherwise the winning category's stored profile is returned *unchanged*
(the code indexes `WEIGHT_PROFILES[best_type]` directly; `adjust_weights`
is not called), with confidence `min(best/total, 1.0)`. -/
def classifyFromScores (catScores : List (String × ℕ)) : BugClassification :=
  if (catScores.map Prod.snd).sum = 0 then
    { bug_type := "GENERIC", confidence := 1/2, weights := getWeights "GENERIC" }
  else
    let best := argmaxFirst catScores
    let total : ℚ := ((catScores.map Prod.snd).sum : ℕ)
    let confidence : ℚ := if 0 < total then (best.2 : ℚ) / total else 1/2
    { bug_type := best.1
      confidence := min confidence 1
      weights := getWeights best.1 }

/-- `BugTypeClassifier.adjust_weights`: return `base_weights` unchanged when
`confidence >= 0.8`, otherwise blend each signal with the GENERIC profile:
`adjusted[s] = confidence*base[s] + (1-confidence)*generic[s]`.  (The code
indexes `generic[signal]`; every profile carries exactly the four signal
keys, so the `getD 0` default is never taken.) -/
def adjustWeights (base : List (String × ℚ)) (confidence : ℚ) : List (String × ℚ) :=
  if 8/10 ≤ confidence then base
  else base.map (fun p =>
    (p.1, confidence * p.2 + (1 - confidence) * ((alookup (getWeights "GENERIC") p.1).getD 0)))

/-! ### Test failure agent (`scripts/agents/test_failure_agent.py`) -/

/-- `class_name.split('.')[-1]`: the suffix after the last `'.'` (the whole
name when there is no dot), computed on the character list. -/
def simpleName (s : String) : String :=
  ⟨(s.data.reverse.takeWhile (fun ch => ch ≠ '.')).reverse⟩

/-- Python `str.lower()`, character by character. -/
def lowerStr (s : String) : String := ⟨s.data.map Char.toLower⟩

/-- Python's substring test `needle in hay` on strings. -/
def containsSub (hay needle : String) : Bool := decide (needle.data <:+: hay.data)

/-- `TestFailureAgent._calculate_coverage_score`.  The agent state is passed
in: `classToTests s` models `s in self._class_to_tests`, `coOcc s` models
the set `self._co_occurrence.get(s, set())` (a Python set, hence the
`dedup`), `mentions` the test-like tokens extracted from the report.
Factors: `+0.3` for an own test file; `+0.4 * len(overlap)/len(candidates)`
when the co-tested set meets the candidates' simple names; `+0.3` when the
simple name occurs (case-insensitively) inside some test mention; capped by
`min(·, 1.0)`. -/
def calcCoverageScore (classToTests : String → Bool) (coOcc : String → List String)
    (cands : List String) (mentions : List String) (class_name : String) : ℚ :=
  let simple := simpleName class_name
  let s1 : ℚ := if classToTests simple then 3/10 else 0
  let candSimples := cands.map simpleName
  let overlap := ((coOcc simple).dedup).filter (fun t => t ∈ candSimples)
  let s2 : ℚ := if overlap ≠ [] then (4/10) * ((overlap.length : ℚ) / (cands.length : ℚ)) else 0
  let s3 : ℚ := if mentions.any (fun m => containsSub (lowerStr m) (lowerStr simple)) then 3/10 else 0
  min (s1 + s2 + s3) 1

/-! ### BM25 ranker (`scripts/bug_localizer.py`)

A fitted index is a function of the document map passed to `fit`, modelled
as an association list `docs : List (String × List String)` of document id
to token list (the tokenizer is upstream of every claim here).  `k1`, `b`
are the constructor parameters (defaults `BM25_K1 = 1.2`, `BM25_B = 0.75`).
-/

/-- `self.N = len(documents)`. -/
def bmN (docs : List (String × List String)) : ℕ := docs.length

/-- `self.doc_lens.get(doc_id, 0)` after `fit`. -/
def docLen (docs : List (String × List String)) (d : String) : ℕ :=
  ((alookup docs d).map List.length).getD 0

/-- Term frequency: `self.doc_terms.get(doc_id, {})[term]` (a `Counter`,
so an absent term counts 0). -/
def docTf (docs : List (String × List String)) (d t : String) : ℕ :=
  ((alookup docs d).map (fun ts => ts.count t)).getD 0

/-- `self.doc_freqs.get(term, 0)` after `fit`: the number of documents whose
term set contains `term`. -/
def docFreq (docs : List (String × List String)) (t : String) : ℕ :=
  (docs.filter (fun p => t ∈ p.2)).length

/-- `total_len` accumulated by `fit`. -/
def totalLen (docs : List (String × List String)) : ℕ :=
  (docs.map (fun p => p.2.length)).sum

/-- `self.avgdl = total_len / self.N if self.N > 0 else 0`. -/
def avgdl (docs : List (String × List String)) : ℚ :=
  if 0 < bmN docs then (totalLen docs : ℚ) / (bmN docs : ℚ) else 0

/-- `BM25Ranker._idf` as a function of the document frequency and corpus
size: `0` when `df = 0` (the deliberate floor), otherwise
`ln((N - df + 0.5)/(df + 0.5) + 1)`. -/
noncomputable def idfF (df N : ℕ) : ℝ :=
  if df = 0 then 0
  else Real.log (((N : ℝ) - (df : ℝ) + 1/2) / ((df : ℝ) + 1/2) + 1)

/-- `BM25Ranker._idf` on a fitted index. -/
noncomputable def idf (docs : List (String × List String)) (t : String) : ℝ :=
  idfF (docFreq docs t) (bmN docs)

/-- The per-query-term summand of `BM25Ranker.score` as a function of the
numbers it reads: `0` when the term is absent from the document
(`if term not in doc_term_freqs: continue`; Counter keys are exactly the
terms with positive count), otherwise
`idf * (tf*(k1+1)) / (tf + k1*(1 - b + b*doc_len/avgdl))`. -/
noncomputable def termContribTF (k1 b : ℚ) (tf df N : ℕ) (dl adl : ℚ) : ℝ :=
  if tf = 0 then 0
  else idfF df N *
    ((tf : ℝ) * ((k1 : ℝ) + 1)) /
      ((tf : ℝ) + (k1 : ℝ) * (1 - (b : ℝ) + (b : ℝ) * ((dl : ℝ) / (adl : ℝ))))

/-- `BM25Ranker.score`: `0.0` for an unknown document id or an empty
document, otherwise the sum of the per-term contributions over the query
term list. -/
noncomputable def bmScore (k1 b : ℚ) (docs : List (String × List String))
    (query : List String) (d : String) : ℝ :=
  if docLen docs d = 0 then 0
  else (query.map (fun t =>
    termContribTF k1 b (docTf docs d t) (docFreq docs t) (bmN docs)
      ((docLen docs d : ℕ) : ℚ) (avgdl docs))).sum

/-- `BM25Ranker.rank`: score every indexed document (in index insertion
order), keep the strictly positive scores, stable-sort by score descending
(`scores.sort(key=lambda x: -x[1])`), return the first `top_k`. -/
noncomputable def bmRank (k1 b : ℚ) (docs : List (String × List String))
    (query : List String) (top_k : ℕ) : List (String × ℝ) :=
  let scored := (docs.map (fun p => (p.1, bmScore k1 b docs query p.1))).filter
    (fun p => decide (0 < p.2))
  (sortD (fun p => p.2) scored).take top_k

end BugLoc

namespace BugLoc

/-! ### Lemmas about the stable sort -/

theorem mem_insertD {α β : Type} [LinearOrder β] (key : α → β) (x : α)
    (l : List α) (a : α) : a ∈ insertD key x l ↔ a = x ∨ a ∈ l := by
  induction l with
  | nil => simp [insertD]
  | cons y ys ih =>
    simp only [insertD]
    split
    · simp [ih]; tauto
    · simp [List.mem_cons]

theorem length_insertD {α β : Type} [LinearOrder β] (key : α → β) (x : α)
    (l : List α) : (insertD key x l).length = l.length + 1 := by
  induction l with
  | nil => rfl
  | cons y ys ih =>
    simp only [insertD]
    split <;> simp [ih]

theorem length_sortD {α β : Type} [LinearOrder β] (key : α → β)
    (l : List α) : (sortD key l).length = l.length := by
  induction l with
  | nil => rfl
  | cons x xs ih => simp [sortD, length_insertD, ih]

theorem mem_sortD {α β : Type} [LinearOrder β] (key : α → β)
    (l : List α) (a : α) : a ∈ sortD key l ↔ a ∈ l := by
  induction l with
  | nil => simp [sortD]
  | cons x xs ih => simp [sortD, mem_insertD, ih]

theorem pairwise_insertD {α β : Type} [LinearOrder β] (key : α → β) (x : α)
    (l : List α) (h : l.Pairwise (fun a b => key b ≤ key a)) :
    (insertD key x l).Pairwise (fun a b => key b ≤ key a) := by
  induction l with
  | nil => simp [insertD]
  | cons y ys ih =>
    simp only [insertD]
    rcases List.pairwise_cons.mp h with ⟨hy, hys⟩
    split
    · rename_i hlt
      refine List.pairwise_cons.mpr ⟨?_, ih hys⟩
      intro a ha
      rcases (mem_insertD key x ys a).mp ha with rfl | ha
      · exact le_of_lt hlt
      · exact hy a ha
    · rename_i hge
      refine List.pairwise_cons.mpr ⟨?_, h⟩
      intro a ha
      rcases List.mem_cons.mp ha with rfl | ha
      · exact not_lt.mp hge
      · exact le_trans (hy a ha) (not_lt.mp hge)

theorem pairwise_sortD {α β : Type} [LinearOrder β] (key : α → β)
    (l : List α) : (sortD key l).Pairwise (fun a b => key b ≤ key a) := by
  induction l with
  | nil => simp [sortD]
  | cons x xs ih => exact pairwise_insertD key x _ ih

/-- Stability of `insertD`, phrased through filtering on a key value:
`x` lands before every element with an equal key. -/
theorem filter_insertD {α β : Type} [LinearOrder β] [DecidableEq α]
    (key : α → β) (x : α) (l : List α) (q : β) :
    (insertD key x l).filter (fun a => key a = q) =
      (if key x = q then x :: l.filter (fun a => key a = q)
        else l.filter (fun a => key a = q)) := by
  induction l with
  | nil => by_cases hx : key x = q <;> simp [insertD, List.filter_cons, hx]
  | cons y ys ih =>
    simp only [insertD]
    by_cases hxy : key x < key y
    · rw [if_pos hxy]
      by_cases hx : key x = q
      · have hy : ¬ key y = q := by
          intro hyq; rw [hx] at hxy; rw [hyq] at hxy; exact lt_irrefl q hxy
        simp [List.filter_cons, hx, hy, ih]
      · simp [List.filter_cons, hx, ih]
    · rw [if_neg hxy]
      by_cases hx : key x = q <;> simp [List.filter_cons, hx]

/-- Stability of `sortD`: for every key value `q`, the equal-key elements of
the sorted list are exactly those of the input, in input order. -/
theorem filter_sortD {α β : Type} [LinearOrder β] [DecidableEq α]
    (key : α → β) (l : List α) (q : β) :
    (sortD key l).filter (fun a => key a = q) = l.filter (fun a => key a = q) := by
  induction l with
  | nil => rfl
  | cons x xs ih =>
    simp only [sortD, filter_insertD, List.filter_cons, ih]
    by_cases hx : key x = q <;> simp [hx]

/-! ### Lemmas about rank assignment -/

theorem map_rank_setRanks (i : ℕ) (l : List CandidateJudgment) :
    (setRanks i l).map (fun j => j.rank) = List.range' i l.length := by
  induction l generalizing i with
  | nil => rfl
  | cons j js ih => simp [setRanks, ih, List.range'_succ]

theorem mem_setRanks (i : ℕ) (l : List CandidateJudgment) (b : CandidateJudgment)
    (hb : b ∈ setRanks i l) : ∃ b' ∈ l, b = { b' with rank := b.rank } := by
  induction l generalizing i with
  | nil => simp [setRanks] at hb
  | cons j js ih =>
    simp only [setRanks, List.mem_cons] at hb
    rcases hb with rfl | hb
    · exact ⟨j, List.mem_cons_self j js, rfl⟩
    · obtain ⟨b', hb', he⟩ := ih (i + 1) hb
      exact ⟨b', List.mem_cons_of_mem j hb', he⟩

theorem setRanks_mem (i : ℕ) (l : List CandidateJudgment) (b' : CandidateJudgment)
    (hb : b' ∈ l) : ∃ k, { b' with rank := k } ∈ setRanks i l := by
  induction l generalizing i with
  | nil => simp at hb
  | cons j js ih =>
    rcases List.mem_cons.mp hb with rfl | hb
    · exact ⟨i, List.mem_cons_self _ _⟩
    · obtain ⟨k, hk⟩ := ih (i + 1) hb
      exact ⟨k, List.mem_cons_of_mem _ hk⟩

theorem pairwise_setRanks (i : ℕ) (l : List CandidateJudgment)
    (h : l.Pairwise (fun a b => b.final_score ≤ a.final_score)) :
    (setRanks i l).Pairwise (fun a b => b.final_score ≤ a.final_score) := by
  induction l generalizing i with
  | nil => simp [setRanks]
  | cons j js ih =>
    rcases List.pairwise_cons.mp h with ⟨hj, hjs⟩
    refine List.pairwise_cons.mpr ⟨?_, ih (i + 1) hjs⟩
    intro b hb
    obtain ⟨b', hb', he⟩ := mem_setRanks (i + 1) js b hb
    have : b.final_score = b'.final_score := by rw [he]
    rw [this]
    exact hj b' hb'

theorem filter_map_setRanks (q : ℚ) (i : ℕ) (l : List CandidateJudgment) :
    ((setRanks i l).filter (fun j => j.final_score = q)).map (fun j => j.class_name)
      = (l.filter (fun j => j.final_score = q)).map (fun j => j.class_name) := by
  induction l generalizing i with
  | nil => rfl
  | cons j js ih =>
    simp only [setRanks, List.filter_cons]
    by_cases hj : j.final_score = q <;> simp [hj, ih]

end BugLoc

namespace BugLoc

theorem clamp01_of_nonneg (q : ℚ) (h : 0 ≤ q) : clamp01 q = min q 1 := by
  unfold clamp01
  exact max_eq_right (le_min h zero_le_one)

/-- `_calculate_final_score` on the four-signal table, written out as the
explicit weighted sum with the two multiplicative adjustments. -/
theorem calcFinal_expand (w : List (String × ℚ)) (st bm pat tst : String → Option ℚ)
    (c : String) (b1 b2 : Bool) :
    calculateFinalScore w (agentScoresFor st bm pat tst c) b1 b2
      = min
          ((((alookup w "stack_trace").getD 0) * ((st c).getD 0)
              * (if (st c).isSome then 1 else 1/2)
            + ((alookup w "bm25").getD 0) * ((bm c).getD 0) * (8/10)
            + ((alookup w "pattern").getD 0) * ((pat c).getD 0) * (7/10)
            + ((alookup w "test").getD 0) * ((tst c).getD 0) * (6/10))
          * (if b1 then 1 + 10/100 else 1) * (if b2 then 95/100 else 1)) 1 := by
  cases b1 <;> cases b2 <;>
    · simp only [calculateFinalScore, agentScoresFor, List.map_cons, List.map_nil,
        List.sum_cons, List.sum_nil, if_true, if_false, Bool.false_eq_true]
      congr 1
      ring

/-- C9: for every judge call on N candidates (any N ≥ 0, the empty list
included, which yields an empty result), the ranks in the output are exactly
the dense sequence 1..N. -/
theorem judge_ranks_dense (w : List (String × ℚ)) (cands : List String)
    (st bm pat tst : String → Option ℚ) (bt : String) :
    ((judge w cands st bm pat tst bt).candidates.map (fun j => j.rank))
        = List.range' 1 cands.length
      ∧ (cands = [] → (judge w cands st bm pat tst bt).candidates = []) := by
  constructor
  · have h : (judge w cands st bm pat tst bt).candidates
        = setRanks 1 (sortD (fun j => j.final_score)
            (cands.map (mkJudgment w st bm pat tst))) := rfl
    rw [h, map_rank_setRanks, length_sortD, List.length_map]
  · intro h; subst h; rfl

/-- C3 counterexample: two candidates supplied in the order `["B", "A"]`
with no signal scores at all tie at final score 0, and the judge returns
them in input order `B, A`, not in ascending qualifiedName order `A, B`:
the sort key is the final score alone, with no name tie-break. -/
theorem judge_tie_not_name_ordered :
    ((judge DEFAULT_WEIGHTS ["B", "A"] (fun _ => none) (fun _ => none) (fun _ => none)
        (fun _ => none) "GENERIC").candidates.map (fun j => (j.class_name, j.final_score)))
        = [("B", 0), ("A", 0)]
      ∧ ((judge DEFAULT_WEIGHTS ["B", "A"] (fun _ => none) (fun _ => none) (fun _ => none)
        (fun _ => none) "GENERIC").candidates.map (fun j => j.class_name)) ≠ ["A", "B"] := by
  have h : ((judge DEFAULT_WEIGHTS ["B", "A"] (fun _ => none) (fun _ => none) (fun _ => none)
      (fun _ => none) "GENERIC").candidates.map (fun j => (j.class_name, j.final_score)))
      = [("B", 0), ("A", 0)] := by
    norm_num [judge, mkJudgment, agentScoresFor, checkConsensus, calculateFinalScore,
      alookup, DEFAULT_WEIGHTS, sortD, insertD, setRanks, popVar, lmean]
  refine ⟨h, ?_⟩
  intro hcontra
  have h2 : ((judge DEFAULT_WEIGHTS ["B", "A"] (fun _ => none) (fun _ => none) (fun _ => none)
      (fun _ => none) "GENERIC").candidates.map (fun j => j.class_name)) = ["B", "A"] := by
    norm_num [judge, mkJudgment, agentScoresFor, checkConsensus, calculateFinalScore,
      alookup, DEFAULT_WEIGHTS, sortD, insertD, setRanks, popVar, lmean]
  rw [h2] at hcontra
  simp at hcontra

/-- C3 (amended): the judge output is sorted by final score descending, and
candidates with equal final score appear in the order in which they were
supplied (the sort is stable and keyed on the final score alone; there is no
qualifiedName tie-break). -/
theorem judge_sorted_and_stable (w : List (String × ℚ)) (cands : List String)
    (st bm pat tst : String → Option ℚ) (bt : String) :
    ((judge w cands st bm pat tst bt).candidates.Pairwise
        (fun a b => b.final_score ≤ a.final_score))
      ∧ ∀ q : ℚ,
        (((judge w cands st bm pat tst bt).candidates.filter
            (fun j => j.final_score = q)).map (fun j => j.class_name))
          = cands.filter (fun c => (mkJudgment w st bm pat tst c).final_score = q) := by
  have hcand : (judge w cands st bm pat tst bt).candidates
      = setRanks 1 (sortD (fun j => j.final_score)
          (cands.map (mkJudgment w st bm pat tst))) := rfl
  constructor
  · rw [hcand]
    exact pairwise_setRanks 1 _ (pairwise_sortD _ _)
  · intro q
    rw [hcand, filter_map_setRanks]
    have hs := filter_sortD (fun j : CandidateJudgment => j.final_score)
      (cands.map (mkJudgment w st bm pat tst)) q
    rw [hs, List.filter_map, List.map_map]
    have : ((fun j : CandidateJudgment => j.class_name) ∘ mkJudgment w st bm pat tst)
        = fun c => c := rfl
    rw [this, List.map_id']
    rfl

end BugLoc

namespace BugLoc

/-- C1 counterexample: the code caps the fused score only from above
(`min(weighted_sum, 1.0)`); there is no lower clamp.  With the default
weights and a (single) supplied stack-trace score of `-1.0`, the judged
final score is `0.35 * (-1) * 1.0 = -0.35`, outside `[0, 1]`. -/
theorem judge_final_score_negative_cex :
    ((judge DEFAULT_WEIGHTS ["A"] (fun _ => some (-1)) (fun _ => none) (fun _ => none)
        (fun _ => none) "GENERIC").candidates.map (fun j => j.final_score)) = [-(7/20)]
      ∧ ¬((0 : ℚ) ≤ -(7/20)) := by
  constructor
  · norm_num [judge, mkJudgment, agentScoresFor, checkConsensus, calculateFinalScore,
      alookup, DEFAULT_WEIGHTS, sortD, insertD, setRanks, popVar, lmean]
  · norm_num

/-- C1 (amended): for every judge call and every candidate, the final score
equals the weighted sum over the four signals of
`weight[signal] * score[signal] * confidence[signal]`, multiplied by `1.10`
when consensus holds and by `0.95` when conflictResolved holds, capped above
by `1.0`; whenever the four relevant weights and the candidate's supplied
scores are nonnegative (the upstream agents produce scores in `[0,1]`),
this cap coincides with clamping to `[0,1]`, the final score lies in
`[0,1]`, and all-zero signal scores give final score 0.  (Without the
nonnegativity assumption only the upper cap applies, as the counterexample
shows.) -/
theorem judge_final_score_fusion (w : List (String × ℚ)) (cands : List String)
    (st bm pat tst : String → Option ℚ) (bt : String) (c : String)
    (hc : c ∈ cands)
    (hw1 : 0 ≤ (alookup w "stack_trace").getD 0) (hw2 : 0 ≤ (alookup w "bm25").getD 0)
    (hw3 : 0 ≤ (alookup w "pattern").getD 0) (hw4 : 0 ≤ (alookup w "test").getD 0)
    (h1 : 0 ≤ (st c).getD 0) (h2 : 0 ≤ (bm c).getD 0)
    (h3 : 0 ≤ (pat c).getD 0) (h4 : 0 ≤ (tst c).getD 0) :
    ∃ j ∈ (judge w cands st bm pat tst bt).candidates,
      j.class_name = c
      ∧ j.final_score = clamp01
          ((((alookup w "stack_trace").getD 0) * ((st c).getD 0)
              * (if (st c).isSome then 1 else 1/2)
            + ((alookup w "bm25").getD 0) * ((bm c).getD 0) * (8/10)
            + ((alookup w "pattern").getD 0) * ((pat c).getD 0) * (7/10)
            + ((alookup w "test").getD 0) * ((tst c).getD 0) * (6/10))
          * (if j.consensus then 1 + 10/100 else 1)
          * (if j.conflict_resolved then 95/100 else 1))
      ∧ 0 ≤ j.final_score ∧ j.final_score ≤ 1
      ∧ (((st c).getD 0 = 0 ∧ (bm c).getD 0 = 0 ∧ (pat c).getD 0 = 0 ∧ (tst c).getD 0 = 0)
          → j.final_score = 0) := by
  have hcand : (judge w cands st bm pat tst bt).candidates
      = setRanks 1 (sortD (fun j => j.final_score)
          (cands.map (mkJudgment w st bm pat tst))) := rfl
  have hmem0 : mkJudgment w st bm pat tst c ∈ cands.map (mkJudgment w st bm pat tst) :=
    List.mem_map_of_mem _ hc
  have hmem1 : mkJudgment w st bm pat tst c
      ∈ sortD (fun j => j.final_score) (cands.map (mkJudgment w st bm pat tst)) :=
    (mem_sortD _ _ _).mpr hmem0
  obtain ⟨k, hk⟩ := setRanks_mem 1 _ _ hmem1
  refine ⟨{ mkJudgment w st bm pat tst c with rank := k }, by rw [hcand]; exact hk, rfl, ?_⟩
  have hconf : (0 : ℚ) ≤ if (st c).isSome then 1 else 1/2 := by split <;> norm_num
  set S : ℚ :=
    (((alookup w "stack_trace").getD 0) * ((st c).getD 0)
        * (if (st c).isSome then 1 else 1/2)
      + ((alookup w "bm25").getD 0) * ((bm c).getD 0) * (8/10)
      + ((alookup w "pattern").getD 0) * ((pat c).getD 0) * (7/10)
      + ((alookup w "test").getD 0) * ((tst c).getD 0) * (6/10)) with hS
  have hS0 : 0 ≤ S := by
    rw [hS]
    have t1 : 0 ≤ ((alookup w "stack_trace").getD 0) * ((st c).getD 0)
        * (if (st c).isSome then 1 else 1/2) :=
      mul_nonneg (mul_nonneg hw1 h1) hconf
    have t2 : 0 ≤ ((alookup w "bm25").getD 0) * ((bm c).getD 0) * (8/10) :=
      mul_nonneg (mul_nonneg hw2 h2) (by norm_num)
    have t3 : 0 ≤ ((alookup w "pattern").getD 0) * ((pat c).getD 0) * (7/10) :=
      mul_nonneg (mul_nonneg hw3 h3) (by norm_num)
    have t4 : 0 ≤ ((alookup w "test").getD 0) * ((tst c).getD 0) * (6/10) :=
      mul_nonneg (mul_nonneg hw4 h4) (by norm_num)
    linarith
  set b1 := (mkJudgment w st bm pat tst c).consensus with hb1
  set b2 := (mkJudgment w st bm pat tst c).conflict_resolved with hb2
  have hf1 : (0 : ℚ) ≤ if b1 then 1 + 10/100 else 1 := by split <;> norm_num
  have hf2 : (0 : ℚ) ≤ if b2 then 95/100 else 1 := by split <;> norm_num
  have hS'0 : 0 ≤ S * (if b1 then 1 + 10/100 else 1) * (if b2 then 95/100 else 1) :=
    mul_nonneg (mul_nonneg hS0 hf1) hf2
  have hfs : ({ mkJudgment w st bm pat tst c with rank := k }).final_score
      = min (S * (if b1 then 1 + 10/100 else 1) * (if b2 then 95/100 else 1)) 1 := by
    show (mkJudgment w st bm pat tst c).final_score = _
    rw [hS, hb1, hb2]
    exact calcFinal_expand w st bm pat tst c _ _
  refine ⟨?_, ?_, ?_, ?_⟩
  · rw [hfs, clamp01_of_nonneg _ hS'0]
  · rw [hfs]; exact le_min hS'0 zero_le_one
  · rw [hfs]; exact min_le_right _ _
  · rintro ⟨z1, z2, z3, z4⟩
    rw [hfs, hS]
    rw [z1, z2, z3, z4]
    norm_num

/-- Witness for `judge_final_score_fusion` at the default weights, a single
candidate with a supplied stack-trace score of `0.5` and no other scores. -/
theorem judge_final_score_fusion_witness :
    ∃ j ∈ (judge DEFAULT_WEIGHTS ["A"] (fun _ => some (1/2)) (fun _ => none)
        (fun _ => none) (fun _ => none) "NPE").candidates,
      j.class_name = "A"
      ∧ j.final_score = clamp01
          ((((alookup DEFAULT_WEIGHTS "stack_trace").getD 0)
              * (((fun _ : String => some ((1 : ℚ)/2)) "A").getD 0)
              * (if ((fun _ : String => some ((1 : ℚ)/2)) "A").isSome then 1 else 1/2)
            + ((alookup DEFAULT_WEIGHTS "bm25").getD 0)
              * (((fun _ : String => (none : Option ℚ)) "A").getD 0) * (8/10)
            + ((alookup DEFAULT_WEIGHTS "pattern").getD 0)
              * (((fun _ : String => (none : Option ℚ)) "A").getD 0) * (7/10)
            + ((alookup DEFAULT_WEIGHTS "test").getD 0)
              * (((fun _ : String => (none : Option ℚ)) "A").getD 0) * (6/10))
          * (if j.consensus then 1 + 10/100 else 1)
          * (if j.conflict_resolved then 95/100 else 1))
      ∧ 0 ≤ j.final_score ∧ j.final_score ≤ 1
      ∧ ((((fun _ : String => some ((1 : ℚ)/2)) "A").getD 0 = 0
            ∧ ((fun _ : String => (none : Option ℚ)) "A").getD 0 = 0
            ∧ ((fun _ : String => (none : Option ℚ)) "A").getD 0 = 0
            ∧ ((fun _ : String => (none : Option ℚ)) "A").getD 0 = 0)
          → j.final_score = 0) :=
  judge_final_score_fusion DEFAULT_WEIGHTS ["A"] (fun _ => some (1/2)) (fun _ => none)
    (fun _ => none) (fun _ => none) "NPE" "A" (by simp)
    (by simp [alookup, DEFAULT_WEIGHTS]; norm_num) (by simp [alookup, DEFAULT_WEIGHTS]; norm_num)
    (by simp [alookup, DEFAULT_WEIGHTS]; norm_num) (by simp [alookup, DEFAULT_WEIGHTS]; norm_num)
    (by norm_num) (by norm_num) (by norm_num) (by norm_num)

end BugLoc

namespace BugLoc

theorem popVar_nonneg (l : List ℚ) : 0 ≤ popVar l := by
  unfold popVar
  apply div_nonneg
  · apply List.sum_nonneg
    intro x hx
    obtain ⟨s, _, rfl⟩ := List.mem_map.mp hx
    positivity
  · exact Nat.cast_nonneg _

/-- C2: for every list of (nonnegative, as produced upstream) signal scores
with at least one nonzero entry, the consensus flag holds iff the population
standard deviation of the nonzero scores is `< 0.2`, the conflictResolved
flag holds iff it is `> 0.4`, and the two flags are never both set
(`_check_consensus` computes `sqrt` of the population variance and compares
against 0.2 / 0.4). -/
theorem check_consensus_stddev (scores : List ℚ)
    (h0 : ∀ s ∈ scores, 0 ≤ s) (h1 : ∃ s ∈ scores, s ≠ 0) :
    ((checkConsensus scores).1 = true
        ↔ Real.sqrt ((popVar (scores.filter (fun s => s ≠ 0)) : ℚ) : ℝ) < 1/5)
      ∧ ((checkConsensus scores).2 = true
        ↔ (2/5 : ℝ) < Real.sqrt ((popVar (scores.filter (fun s => s ≠ 0)) : ℚ) : ℝ))
      ∧ ¬((checkConsensus scores).1 = true ∧ (checkConsensus scores).2 = true) := by
  have hfeq : scores.filter (fun s => s ≠ 0) = scores.filter (fun s => 0 < s) := by
    apply List.filter_congr
    intro s hs
    by_cases h : s = 0
    · subst h; simp
    · simp [h, lt_of_le_of_ne (h0 s hs) (Ne.symm h)]
  obtain ⟨s0, hs0, hs0ne⟩ := h1
  have hs0pos : 0 < s0 := lt_of_le_of_ne (h0 s0 hs0) (Ne.symm hs0ne)
  have hpos : scores.filter (fun s => 0 < s) ≠ [] :=
    List.ne_nil_of_mem (List.mem_filter.mpr ⟨hs0, by simpa using hs0pos⟩)
  rw [hfeq]
  set v : ℚ := popVar (scores.filter (fun s => 0 < s)) with hv
  have e1 : Real.sqrt (v : ℝ) < 1/5 ↔ v < 1/25 := by
    rw [Real.sqrt_lt' (by norm_num : (0:ℝ) < 1/5)]
    have h5 : ((1:ℝ)/5)^2 = ((1/25 : ℚ) : ℝ) := by norm_num
    rw [h5]
    exact Rat.cast_lt
  have e2 : (2/5 : ℝ) < Real.sqrt (v : ℝ) ↔ (4/25 : ℚ) < v := by
    rw [Real.lt_sqrt (by norm_num : (0:ℝ) ≤ 2/5)]
    have h5 : ((2:ℝ)/5)^2 = ((4/25 : ℚ) : ℝ) := by norm_num
    rw [h5]
    exact Rat.cast_lt
  have hcc : checkConsensus scores =
      (if v < 1/25 then (true, false)
        else if v > 4/25 then (false, true) else (false, false)) := by
    simp only [checkConsensus]
    rw [if_neg hpos]
  rw [hcc]
  by_cases hc1 : v < 1/25
  · rw [if_pos hc1]
    refine ⟨⟨fun _ => e1.mpr hc1, fun _ => rfl⟩, ⟨fun h => absurd h (by decide), ?_⟩,
      by decide⟩
    intro h
    exfalso
    have := e2.mp h
    linarith
  · rw [if_neg hc1]
    by_cases hc2 : v > 4/25
    · rw [if_pos hc2]
      exact ⟨⟨fun h => absurd h (by decide), fun h => absurd (e1.mp h) hc1⟩,
        ⟨fun _ => e2.mpr hc2, fun _ => rfl⟩, by decide⟩
    · rw [if_neg hc2]
      exact ⟨⟨fun h => absurd h (by decide), fun h => absurd (e1.mp h) hc1⟩,
        ⟨fun h => absurd h (by decide), fun h => absurd (e2.mp h) hc2⟩, by decide⟩

/-- Witness for `check_consensus_stddev` on the scores `[0.5, 0.5, 0]`
(two agreeing nonzero signals: variance 0, consensus). -/
theorem check_consensus_stddev_witness :
    ((checkConsensus [1/2, 1/2, 0]).1 = true
        ↔ Real.sqrt ((popVar (([1/2, 1/2, 0] : List ℚ).filter (fun s => s ≠ 0)) : ℚ) : ℝ)
            < 1/5)
      ∧ ((checkConsensus [1/2, 1/2, 0]).2 = true
        ↔ (2/5 : ℝ) < Real.sqrt
            ((popVar (([1/2, 1/2, 0] : List ℚ).filter (fun s => s ≠ 0)) : ℚ) : ℝ))
      ∧ ¬((checkConsensus [1/2, 1/2, 0]).1 = true
          ∧ (checkConsensus [1/2, 1/2, 0]).2 = true) :=
  check_consensus_stddev [1/2, 1/2, 0]
    (by intro s hs; fin_cases hs <;> norm_num)
    ⟨1/2, by simp, by norm_num⟩

end BugLoc

namespace BugLoc

theorem sum_map_div (l : List (String × ℚ)) (c : ℚ) :
    (l.map (fun p => p.2 / c)).sum = (l.map Prod.snd).sum / c := by
  induction l with
  | nil => simp
  | cons p ps ih => simp [ih, add_div]

/-- C5 counterexample: an all-zero weight profile is accepted unchanged by
`_normalize_weights` (the division is guarded by `if total > 0`); the stored
weights then sum to 0, not to 1 within 1e-6, and no error is raised. -/
theorem normalize_zero_weights_cex :
    normalizeWeights [("stack_trace", 0), ("bm25", 0), ("pattern", 0), ("test", 0)]
        = [("stack_trace", 0), ("bm25", 0), ("pattern", 0), ("test", 0)]
      ∧ ¬(|wsum (normalizeWeights
            [("stack_trace", 0), ("bm25", 0), ("pattern", 0), ("test", 0)]) - 1|
          ≤ 1/1000000) := by
  constructor
  · norm_num [normalizeWeights, wsum]
  · norm_num [normalizeWeights, wsum]

/-- C5 (amended): `_normalize_weights` makes the stored weights sum to
exactly 1 whenever the given profile has positive total; a profile with
nonpositive total (e.g. all zeros) is stored unchanged — the code treats it
silently, with no error surfaced to the caller. -/
theorem normalize_weights_sum (w : List (String × ℚ)) :
    (0 < wsum w → wsum (normalizeWeights w) = 1)
      ∧ (¬ 0 < wsum w → normalizeWeights w = w) := by
  constructor
  · intro h
    show wsum (normalizeWeights w) = 1
    rw [normalizeWeights, if_pos h]
    show (List.map Prod.snd (w.map (fun p => (p.1, p.2 / wsum w)))).sum = 1
    rw [List.map_map]
    show (w.map (fun p : String × ℚ => p.2 / wsum w)).sum = 1
    rw [sum_map_div]
    exact div_self (ne_of_gt h)
  · intro h
    unfold normalizeWeights
    rw [if_neg h]

/-- Witness for `normalize_weights_sum`: the default profile normalizes to
sum 1; the all-zero singleton profile is returned unchanged. -/
theorem normalize_weights_sum_witness :
    wsum (normalizeWeights DEFAULT_WEIGHTS) = 1
      ∧ normalizeWeights [("stack_trace", (0 : ℚ))] = [("stack_trace", (0 : ℚ))] :=
  ⟨(normalize_weights_sum DEFAULT_WEIGHTS).1 (by norm_num [wsum, DEFAULT_WEIGHTS]),
   (normalize_weights_sum [("stack_trace", (0 : ℚ))]).2 (by norm_num [wsum])⟩

/-- C4 counterexample: on match counts NPE=1, CCE=1 (e.g. the report
`"null pointer cast fail"`, where exactly one NPE pattern and one CCE
pattern match), `classify` returns confidence `1/2 < 0.8` yet the *raw* NPE
profile, not the confidence-weighted blend with the GENERIC profile:
`adjust_weights` is never invoked by `classify` (nor by the orchestrator's
`_classify_bug_node`). -/
theorem classify_low_confidence_not_blended :
    (classifyFromScores [("NPE", 1), ("CCE", 1), ("CME", 0), ("AIOBE", 0),
        ("IAE", 0), ("ISE", 0), ("IOE", 0)]).bug_type = "NPE"
      ∧ (classifyFromScores [("NPE", 1), ("CCE", 1), ("CME", 0), ("AIOBE", 0),
          ("IAE", 0), ("ISE", 0), ("IOE", 0)]).confidence = 1/2
      ∧ ((1 : ℚ)/2) < 8/10
      ∧ (classifyFromScores [("NPE", 1), ("CCE", 1), ("CME", 0), ("AIOBE", 0),
          ("IAE", 0), ("ISE", 0), ("IOE", 0)]).weights = getWeights "NPE"
      ∧ (classifyFromScores [("NPE", 1), ("CCE", 1), ("CME", 0), ("AIOBE", 0),
          ("IAE", 0), ("ISE", 0), ("IOE", 0)]).weights
          ≠ adjustWeights (getWeights "NPE")
            (classifyFromScores [("NPE", 1), ("CCE", 1), ("CME", 0), ("AIOBE", 0),
              ("IAE", 0), ("ISE", 0), ("IOE", 0)]).confidence := by
  refine ⟨?_, ?_, by norm_num, ?_, ?_⟩
  · norm_num [classifyFromScores, argmaxFirst]
  · norm_num [classifyFromScores, argmaxFirst]
  · norm_num [classifyFromScores, argmaxFirst]
  · intro h
    simp [classifyFromScores, argmaxFirst, adjustWeights, getWeights, alookup,
      WEIGHT_PROFILES] at h
    norm_num at h

/-- C4 (amended): `classify` always returns the winning category's stored
weight profile unchanged, whatever the confidence; the confidence-weighted
blend `adjusted[s] = confidence*category[s] + (1-confidence)*generic[s]` is
implemented by the separate `adjust_weights` method (a no-op above 0.8),
which no caller invokes. -/
theorem classify_weights_unblended (catScores : List (String × ℕ)) :
    ((classifyFromScores catScores).weights
        = getWeights (classifyFromScores catScores).bug_type)
      ∧ ∀ (base : List (String × ℚ)) (conf : ℚ), conf < 8/10 →
          adjustWeights base conf = base.map (fun p =>
            (p.1, conf * p.2 + (1 - conf) * ((alookup (getWeights "GENERIC") p.1).getD 0))) := by
  constructor
  · unfold classifyFromScores
    split
    · rfl
    · rfl
  · intro base conf h
    unfold adjustWeights
    rw [if_neg (not_le.mpr h)]

/-- Witness for `classify_weights_unblended` at the single-match NPE input
and the blend of the NPE profile at confidence `1/2`. -/
theorem classify_weights_unblended_witness :
    ((classifyFromScores [("NPE", 1)]).weights
        = getWeights (classifyFromScores [("NPE", 1)]).bug_type)
      ∧ adjustWeights (getWeights "NPE") (1/2) = (getWeights "NPE").map (fun p =>
          (p.1, (1/2) * p.2 + (1 - 1/2) * ((alookup (getWeights "GENERIC") p.1).getD 0))) :=
  ⟨(classify_weights_unblended [("NPE", 1)]).1,
   (classify_weights_unblended [("NPE", 1)]).2 (getWeights "NPE") (1/2) (by norm_num)⟩

end BugLoc

namespace BugLoc

/-- C8 counterexample: candidates `["A", "B"]`, where `A` and `B` share one
test file (each has a test file and co-occurs with the other) and the
report mentions no test.  `A`'s only co-occurring *other* candidate is `B`,
i.e. 100% of the other candidates, so the claimed formula gives
`0.3 + 0.4*1 = 0.7`; the code divides the overlap count by the total
number of candidates (`len(candidates) = 2`, the candidate itself
included) and yields `0.3 + 0.4*(1/2) = 0.5`. -/
theorem coverage_score_denominator_cex :
    calcCoverageScore (fun s => s == "A" || s == "B")
        (fun s => if s = "A" then ["B"] else if s = "B" then ["A"] else [])
        ["A", "B"] [] "A" = 1/2
      ∧ ((1 : ℚ)/2) ≠ 3/10 + 4/10 * 1 := by
  constructor
  · norm_num [calcCoverageScore, show simpleName "A" = "A" from by decide,
      show simpleName "B" = "B" from by decide,
      show (["B"] : List String).dedup = ["B"] from by decide]
  · norm_num

/-- C8 (amended): the coverage score is the sum of `+0.3` for an own test
file, `+0.4 * |overlap| / |candidates|` when some other candidate co-occurs
in tests (the denominator is the total number of candidates, the candidate
itself included, not the number of other candidates), and `+0.3` for a
(case-insensitive) substring mention in a test-like token of the report,
capped by `min(·, 1.0)`; the result always lies in `[0,1]`, and missing
coverage data (no test file, no co-occurrence, no mention) yields 0, not
an error. -/
theorem coverage_score_factors (classToTests : String → Bool)
    (coOcc : String → List String) (cands : List String)
    (mentions : List String) (cn : String) :
    (calcCoverageScore classToTests coOcc cands mentions cn
        = min ((if classToTests (simpleName cn) then (3 : ℚ)/10 else 0)
            + (if ((coOcc (simpleName cn)).dedup).filter
                  (fun t => t ∈ cands.map simpleName) ≠ []
                then (4/10) * (((((coOcc (simpleName cn)).dedup).filter
                    (fun t => t ∈ cands.map simpleName)).length : ℚ)
                  / (cands.length : ℚ))
                else 0)
            + (if mentions.any (fun m => containsSub (lowerStr m) (lowerStr (simpleName cn)))
                then (3 : ℚ)/10 else 0)) 1)
      ∧ 0 ≤ calcCoverageScore classToTests coOcc cands mentions cn
      ∧ calcCoverageScore classToTests coOcc cands mentions cn ≤ 1
      ∧ ((classToTests (simpleName cn) = false ∧ coOcc (simpleName cn) = []
            ∧ mentions.any (fun m => containsSub (lowerStr m) (lowerStr (simpleName cn)))
              = false)
          → calcCoverageScore classToTests coOcc cands mentions cn = 0) := by
  have heq : calcCoverageScore classToTests coOcc cands mentions cn
      = min ((if classToTests (simpleName cn) then (3 : ℚ)/10 else 0)
          + (if ((coOcc (simpleName cn)).dedup).filter
                (fun t => t ∈ cands.map simpleName) ≠ []
              then (4/10) * (((((coOcc (simpleName cn)).dedup).filter
                  (fun t => t ∈ cands.map simpleName)).length : ℚ)
                / (cands.length : ℚ))
              else 0)
          + (if mentions.any (fun m => containsSub (lowerStr m) (lowerStr (simpleName cn)))
              then (3 : ℚ)/10 else 0)) 1 := rfl
  have hs1 : (0 : ℚ) ≤ (if classToTests (simpleName cn) then (3 : ℚ)/10 else 0) := by
    split <;> norm_num
  have hs2 : (0 : ℚ) ≤ (if ((coOcc (simpleName cn)).dedup).filter
        (fun t => t ∈ cands.map simpleName) ≠ []
      then (4/10) * (((((coOcc (simpleName cn)).dedup).filter
          (fun t => t ∈ cands.map simpleName)).length : ℚ)
        / (cands.length : ℚ))
      else 0) := by
    split
    · positivity
    · exact le_refl 0
  have hs3 : (0 : ℚ) ≤ (if mentions.any
        (fun m => containsSub (lowerStr m) (lowerStr (simpleName cn)))
      then (3 : ℚ)/10 else 0) := by
    split <;> norm_num
  refine ⟨heq, ?_, ?_, ?_⟩
  · rw [heq]
    exact le_min (by linarith) zero_le_one
  · rw [heq]
    exact min_le_right _ _
  · rintro ⟨z1, z2, z3⟩
    rw [heq, z1, z2, z3]
    simp

/-- Witness for `coverage_score_factors`: a candidate with no coverage data
and a report test token that does not mention it scores 0. -/
theorem coverage_score_factors_witness :
    (calcCoverageScore (fun _ => false) (fun _ => []) ["Foo"] ["BarTest"] "Foo"
        = min ((if (fun _ : String => false) (simpleName "Foo") then (3 : ℚ)/10 else 0)
            + (if (((fun _ : String => ([] : List String)) (simpleName "Foo")).dedup).filter
                  (fun t => t ∈ (["Foo"].map simpleName)) ≠ []
                then (4/10) * ((((((fun _ : String => ([] : List String))
                      (simpleName "Foo")).dedup).filter
                    (fun t => t ∈ (["Foo"].map simpleName))).length : ℚ)
                  / ((["Foo"].length : ℕ) : ℚ))
                else 0)
            + (if (["BarTest"].any
                  (fun m => containsSub (lowerStr m) (lowerStr (simpleName "Foo"))))
                then (3 : ℚ)/10 else 0)) 1)
      ∧ 0 ≤ calcCoverageScore (fun _ => false) (fun _ => []) ["Foo"] ["BarTest"] "Foo"
      ∧ calcCoverageScore (fun _ => false) (fun _ => []) ["Foo"] ["BarTest"] "Foo" ≤ 1
      ∧ (((fun _ : String => false) (simpleName "Foo") = false
            ∧ (fun _ : String => ([] : List String)) (simpleName "Foo") = []
            ∧ (["BarTest"].any
                (fun m => containsSub (lowerStr m) (lowerStr (simpleName "Foo")))) = false)
          → calcCoverageScore (fun _ => false) (fun _ => []) ["Foo"] ["BarTest"] "Foo" = 0) :=
  coverage_score_factors (fun _ => false) (fun _ => []) ["Foo"] ["BarTest"] "Foo"

end BugLoc

namespace BugLoc

theorem alookup_mem {α : Type} (l : List (String × α)) (d : String) (v : α)
    (h : alookup l d = some v) : (d, v) ∈ l := by
  induction l with
  | nil => simp [alookup] at h
  | cons p ps ih =>
    obtain ⟨k, w⟩ := p
    simp only [alookup] at h
    split at h
    · rename_i hk
      obtain rfl := Option.some.injEq .. ▸ h
      subst hk
      exact List.mem_cons_self _ _
    · exact List.mem_cons_of_mem _ (ih h)

/-- C10: after `fit`, `score` is total and the division by the average
document length is safe: the branch that divides is reached only when the
target document's token count is positive, a positive token count for any
indexed document forces `avgdl > 0`, and an unknown document id or an empty
document yields score `0.0`. -/
theorem bm25_score_no_div_by_zero (k1 b : ℚ) (docs : List (String × List String))
    (q : List String) (d : String) :
    (0 < docLen docs d → 0 < avgdl docs)
      ∧ (docLen docs d = 0 → bmScore k1 b docs q d = 0)
      ∧ (alookup docs d = none → docLen docs d = 0) := by
  refine ⟨?_, ?_, ?_⟩
  · intro h
    cases halk : alookup docs d with
    | none => rw [docLen, halk] at h; simp at h
    | some ts =>
      rw [docLen, halk] at h
      simp only [Option.map_some', Option.getD_some] at h
      have hmem : (d, ts) ∈ docs := alookup_mem docs d ts halk
      have hN : 0 < bmN docs := List.length_pos.mpr (List.ne_nil_of_mem hmem)
      have htot : ts.length ≤ totalLen docs :=
        List.single_le_sum (fun _ _ => Nat.zero_le _) _
          (List.mem_map_of_mem (fun p => p.2.length) hmem)
      have htotpos : 0 < totalLen docs := lt_of_lt_of_le h htot
      rw [avgdl, if_pos hN]
      apply div_pos
      · exact_mod_cast htotpos
      · exact_mod_cast hN
  · intro h
    rw [bmScore, if_pos h]
  · intro h
    rw [docLen, h]
    rfl

/-- Witness for `bm25_score_no_div_by_zero` on the one-document corpus
`{"a": ["foo"]}`: the indexed document has one token, so the average
document length is positive; the unknown id `"z"` scores 0. -/
theorem bm25_score_no_div_by_zero_witness :
    (0 < avgdl [("a", ["foo"])])
      ∧ (bmScore (6/5) (3/4) [("a", ["foo"])] ["foo"] "z" = 0)
      ∧ (docLen [("a", ["foo"])] "z" = 0) :=
  ⟨(bm25_score_no_div_by_zero (6/5) (3/4) [("a", ["foo"])] ["foo"] "a").1 (by decide),
   (bm25_score_no_div_by_zero (6/5) (3/4) [("a", ["foo"])] ["foo"] "z").2.1 (by decide),
   (bm25_score_no_div_by_zero (6/5) (3/4) [("a", ["foo"])] ["foo"] "z").2.2 (by decide)⟩

end BugLoc

namespace BugLoc

theorem idfF_nonneg (df N : ℕ) (h : df ≤ N) : 0 ≤ idfF df N := by
  unfold idfF
  split
  · exact le_refl 0
  · apply Real.log_nonneg
    have hnum : (0 : ℝ) ≤ (N : ℝ) - (df : ℝ) + 1/2 := by
      have : (df : ℝ) ≤ (N : ℝ) := by exact_mod_cast h
      linarith
    have hden : (0 : ℝ) < (df : ℝ) + 1/2 := by positivity
    have : (0 : ℝ) ≤ ((N : ℝ) - (df : ℝ) + 1/2) / ((df : ℝ) + 1/2) :=
      div_nonneg hnum (le_of_lt hden)
    linarith

theorem termContribTF_nonneg (k1 b : ℚ) (tf df N : ℕ) (dl adl : ℚ)
    (hk1 : 0 < k1) (hb0 : 0 ≤ b) (hb1 : b ≤ 1) (hdfN : df ≤ N)
    (hdl : 0 ≤ dl) (hadl : 0 < adl) :
    0 ≤ termContribTF k1 b tf df N dl adl := by
  unfold termContribTF
  split
  · exact le_refl 0
  · rename_i htf
    have hidf := idfF_nonneg df N hdfN
    have htfpos : (0 : ℝ) < (tf : ℝ) := by
      have : 0 < tf := Nat.pos_of_ne_zero htf
      exact_mod_cast this
    have hk1R : (0 : ℝ) < (k1 : ℝ) := by exact_mod_cast hk1
    have hbR0 : (0 : ℝ) ≤ (b : ℝ) := by exact_mod_cast hb0
    have hbR1 : (b : ℝ) ≤ 1 := by exact_mod_cast hb1
    have hdlR : (0 : ℝ) ≤ (dl : ℝ) := by exact_mod_cast hdl
    have hadlR : (0 : ℝ) < (adl : ℝ) := by exact_mod_cast hadl
    have hC : (0 : ℝ) ≤ (k1 : ℝ) * (1 - (b : ℝ) + (b : ℝ) * ((dl : ℝ) / (adl : ℝ))) := by
      have hfrac : (0 : ℝ) ≤ (dl : ℝ) / (adl : ℝ) := div_nonneg hdlR (le_of_lt hadlR)
      have hbf : (0 : ℝ) ≤ (b : ℝ) * ((dl : ℝ) / (adl : ℝ)) := mul_nonneg hbR0 hfrac
      have hinner : (0 : ℝ) ≤ 1 - (b : ℝ) + (b : ℝ) * ((dl : ℝ) / (adl : ℝ)) := by linarith
      exact mul_nonneg (le_of_lt hk1R) hinner
    have hden : (0 : ℝ) < (tf : ℝ) + (k1 : ℝ) * (1 - (b : ℝ) + (b : ℝ) * ((dl : ℝ) / (adl : ℝ))) := by
      linarith
    have hnum : (0 : ℝ) ≤ (tf : ℝ) * ((k1 : ℝ) + 1) := by nlinarith
    positivity

/-- C6: (a) a query term absent from every indexed document (document
frequency 0) contributes exactly 0 to the BM25 score — removing it from the
query leaves every document's score unchanged (never a negative-IDF
contribution); (b) for a fixed document length (and fixed document
frequency, corpus size, average length, `k1 > 0`, `0 ≤ b ≤ 1`), the
per-term contribution is non-decreasing in the term's frequency in the
document. -/
theorem bm25_absent_term_zero_and_tf_monotone :
    (∀ (k1 b : ℚ) (docs : List (String × List String)) (q1 q2 : List String)
        (t d : String), docFreq docs t = 0 →
        bmScore k1 b docs (q1 ++ t :: q2) d = bmScore k1 b docs (q1 ++ q2) d)
      ∧ (∀ (k1 b : ℚ) (tf1 tf2 df N : ℕ) (dl adl : ℚ),
          0 < k1 → 0 ≤ b → b ≤ 1 → df ≤ N → 0 ≤ dl → 0 < adl → tf1 ≤ tf2 →
          termContribTF k1 b tf1 df N dl adl ≤ termContribTF k1 b tf2 df N dl adl) := by
  constructor
  · intro k1 b docs q1 q2 t d hdf
    by_cases hdl : docLen docs d = 0
    · rw [bmScore, if_pos hdl, bmScore, if_pos hdl]
    · rw [bmScore, if_neg hdl, bmScore, if_neg hdl]
      have htf : docTf docs d t = 0 := by
        have hnone : ∀ p ∈ docs, t ∉ p.2 := by
          intro p hp hmem
          have hfil : docs.filter (fun p => t ∈ p.2) = [] :=
            List.length_eq_zero.mp hdf
          have : p ∈ docs.filter (fun p => t ∈ p.2) :=
            List.mem_filter.mpr ⟨hp, by simpa using hmem⟩
          rw [hfil] at this
          simp at this
        rw [docTf]
        cases halk : alookup docs d with
        | none => rfl
        | some ts =>
          have hmem : (d, ts) ∈ docs := alookup_mem docs d ts halk
          have hni : t ∉ ts := hnone _ hmem
          simp [List.count_eq_zero.mpr hni]
      rw [List.map_append, List.map_append, List.sum_append, List.sum_append,
        List.map_cons, List.sum_cons, htf]
      have : termContribTF k1 b 0 (docFreq docs t) (bmN docs)
          ((docLen docs d : ℕ) : ℚ) (avgdl docs) = 0 := by
        rw [termContribTF, if_pos rfl]
      rw [this, zero_add]
  · intro k1 b tf1 tf2 df N dl adl hk1 hb0 hb1 hdfN hdl hadl h12
    by_cases h1 : tf1 = 0
    · rw [h1]
      have : termContribTF k1 b 0 df N dl adl = 0 := by
        rw [termContribTF, if_pos rfl]
      rw [this]
      exact termContribTF_nonneg k1 b tf2 df N dl adl hk1 hb0 hb1 hdfN hdl hadl
    · have h2 : tf2 ≠ 0 := by
        intro h
        exact h1 (Nat.le_zero.mp (h ▸ h12))
      rw [termContribTF, if_neg h1, termContribTF, if_neg h2]
      have hidf := idfF_nonneg df N hdfN
      have hk1R : (0 : ℝ) < (k1 : ℝ) := by exact_mod_cast hk1
      have hbR0 : (0 : ℝ) ≤ (b : ℝ) := by exact_mod_cast hb0
      have hbR1 : (b : ℝ) ≤ 1 := by exact_mod_cast hb1
      have hdlR : (0 : ℝ) ≤ (dl : ℝ) := by exact_mod_cast hdl
      have hadlR : (0 : ℝ) < (adl : ℝ) := by exact_mod_cast hadl
      have ht1 : (0 : ℝ) < (tf1 : ℝ) := by
        have : 0 < tf1 := Nat.pos_of_ne_zero h1
        exact_mod_cast this
      have ht2 : (0 : ℝ) < (tf2 : ℝ) := by
        have : 0 < tf2 := Nat.pos_of_ne_zero h2
        exact_mod_cast this
      have h12R : (tf1 : ℝ) ≤ (tf2 : ℝ) := by exact_mod_cast h12
      set C : ℝ := (k1 : ℝ) * (1 - (b : ℝ) + (b : ℝ) * ((dl : ℝ) / (adl : ℝ))) with hCdef
      have hC : (0 : ℝ) ≤ C := by
        have hfrac : (0 : ℝ) ≤ (dl : ℝ) / (adl : ℝ) := div_nonneg hdlR (le_of_lt hadlR)
        have hbf : (0 : ℝ) ≤ (b : ℝ) * ((dl : ℝ) / (adl : ℝ)) := mul_nonneg hbR0 hfrac
        have hinner : (0 : ℝ) ≤ 1 - (b : ℝ) + (b : ℝ) * ((dl : ℝ) / (adl : ℝ)) := by linarith
        rw [hCdef]
        exact mul_nonneg (le_of_lt hk1R) hinner
      have hden1 : (0 : ℝ) < (tf1 : ℝ) + C := by linarith
      have hden2 : (0 : ℝ) < (tf2 : ℝ) + C := by linarith
      have hk1p : (0 : ℝ) < (k1 : ℝ) + 1 := by linarith
      have key : ((tf1 : ℝ) * ((k1 : ℝ) + 1)) / ((tf1 : ℝ) + C)
          ≤ ((tf2 : ℝ) * ((k1 : ℝ) + 1)) / ((tf2 : ℝ) + C) := by
        rw [div_le_div_iff₀ hden1 hden2]
        nlinarith [mul_nonneg (mul_nonneg (le_of_lt hk1p) hC) (sub_nonneg.mpr h12R)]
      calc idfF df N * ((tf1 : ℝ) * ((k1 : ℝ) + 1)) / ((tf1 : ℝ) + C)
          = idfF df N * (((tf1 : ℝ) * ((k1 : ℝ) + 1)) / ((tf1 : ℝ) + C)) := by ring
        _ ≤ idfF df N * (((tf2 : ℝ) * ((k1 : ℝ) + 1)) / ((tf2 : ℝ) + C)) :=
            mul_le_mul_of_nonneg_left key hidf
        _ = idfF df N * ((tf2 : ℝ) * ((k1 : ℝ) + 1)) / ((tf2 : ℝ) + C) := by ring
/-- Witness for `bm25_absent_term_zero_and_tf_monotone`: on the corpus
`{"a": ["foo"]}` the absent term `"bar"` does not change the score; the
contribution at `tf = 2` dominates the one at `tf = 1` for the default
`k1 = 1.2`, `b = 0.75`. -/
theorem bm25_absent_term_zero_and_tf_monotone_witness :
    (bmScore (6/5) (3/4) [("a", ["foo"])] (["bar"] ++ "bar" :: ["foo"]) "a"
        = bmScore (6/5) (3/4) [("a", ["foo"])] (["bar"] ++ ["foo"]) "a")
      ∧ (termContribTF (6/5) (3/4) 1 1 2 1 (3/2) ≤ termContribTF (6/5) (3/4) 2 1 2 1 (3/2)) :=
  ⟨(bm25_absent_term_zero_and_tf_monotone.1) (6/5) (3/4) [("a", ["foo"])] ["bar"] ["foo"]
      "bar" "a" (by decide),
   (bm25_absent_term_zero_and_tf_monotone.2) (6/5) (3/4) 1 2 1 2 1 (3/2)
      (by norm_num) (by norm_num) (by norm_num) (by norm_num) (by norm_num) (by norm_num)
      (by norm_num)⟩

end BugLoc

namespace BugLoc

/-- C7 counterexample: two identical documents indexed in the order
`"b", "a"` tie at the same positive BM25 score for the query `["foo"]`,
and `rank` returns `b` before `a` — ties keep index insertion order
(`scores.sort(key=lambda x: -x[1])` is stable and keyed on the score
alone), not ascending document id order. -/
theorem bm25_rank_tie_not_id_ordered :
    ((bmRank (6/5) (3/4) [("b", ["foo"]), ("a", ["foo"])] ["foo"] 10).map Prod.fst)
        = ["b", "a"]
      ∧ (["b", "a"] ≠ ["a", "b"]) := by
  have hb : bmScore (6/5) (3/4) [("b", ["foo"]), ("a", ["foo"])] ["foo"] "b"
      = Real.log (6/5) := by
    rw [bmScore, if_neg (by decide)]
    have h1 : docTf [("b", ["foo"]), ("a", ["foo"])] "b" "foo" = 1 := by decide
    have h2 : docFreq [("b", ["foo"]), ("a", ["foo"])] "foo" = 2 := by decide
    have h3 : avgdl [("b", ["foo"]), ("a", ["foo"])] = 1 := by
      rw [avgdl, if_pos (by decide)]; norm_num [totalLen, bmN]
    have h4 : docLen [("b", ["foo"]), ("a", ["foo"])] "b" = 1 := by decide
    have h5 : bmN [("b", ["foo"]), ("a", ["foo"])] = 2 := by decide
    simp only [List.map_cons, List.map_nil, List.sum_cons, List.sum_nil, h1, h2, h3, h4, h5]
    rw [termContribTF, if_neg (by norm_num)]
    rw [idfF, if_neg (by norm_num)]
    norm_num
  have ha : bmScore (6/5) (3/4) [("b", ["foo"]), ("a", ["foo"])] ["foo"] "a"
      = Real.log (6/5) := by
    rw [bmScore, if_neg (by decide)]
    have h1 : docTf [("b", ["foo"]), ("a", ["foo"])] "a" "foo" = 1 := by decide
    have h2 : docFreq [("b", ["foo"]), ("a", ["foo"])] "foo" = 2 := by decide
    have h3 : avgdl [("b", ["foo"]), ("a", ["foo"])] = 1 := by
      rw [avgdl, if_pos (by decide)]; norm_num [totalLen, bmN]
    have h4 : docLen [("b", ["foo"]), ("a", ["foo"])] "a" = 1 := by decide
    have h5 : bmN [("b", ["foo"]), ("a", ["foo"])] = 2 := by decide
    simp only [List.map_cons, List.map_nil, List.sum_cons, List.sum_nil, h1, h2, h3, h4, h5]
    rw [termContribTF, if_neg (by norm_num)]
    rw [idfF, if_neg (by norm_num)]
    norm_num
  have hpos : (0 : ℝ) < Real.log (6/5) := Real.log_pos (by norm_num)
  constructor
  · have hr : bmRank (6/5) (3/4) [("b", ["foo"]), ("a", ["foo"])] ["foo"] 10
        = (sortD (fun p : String × ℝ => p.2)
            (([("b", ["foo"]), ("a", ["foo"])].map
              (fun p => (p.1,
                bmScore (6/5) (3/4) [("b", ["foo"]), ("a", ["foo"])] ["foo"] p.1))).filter
              (fun p => decide (0 < p.2)))).take 10 := rfl
    rw [hr]
    simp only [List.map_cons, List.map_nil]
    rw [hb, ha]
    simp [List.filter_cons, hpos, sortD, insertD, lt_self_iff_false]
  · simp

/-- C7 (amended): `rank` returns only documents with strictly positive
score, at most `top_k` of them, sorted by score descending; documents with
equal score appear in index insertion order (the sort is stable and keyed
on the score alone; there is no document-id tie-break), truncated to the
first `top_k`. -/
theorem bm25_rank_props (k1 b : ℚ) (docs : List (String × List String))
    (q : List String) (K : ℕ) :
    (∀ p ∈ bmRank k1 b docs q K, 0 < p.2)
      ∧ (bmRank k1 b docs q K).length ≤ K
      ∧ (bmRank k1 b docs q K).Pairwise (fun x y => y.2 ≤ x.2)
      ∧ ∀ v : ℝ, ((bmRank k1 b docs q K).filter (fun p => p.2 = v))
          <+: (((docs.map (fun p => (p.1, bmScore k1 b docs q p.1))).filter
              (fun p => decide (0 < p.2))).filter (fun p => p.2 = v)) := by
  have hr : bmRank k1 b docs q K
      = (sortD (fun p : String × ℝ => p.2)
          ((docs.map (fun p => (p.1, bmScore k1 b docs q p.1))).filter
            (fun p => decide (0 < p.2)))).take K := rfl
  refine ⟨?_, ?_, ?_, ?_⟩
  · intro p hp
    rw [hr] at hp
    have hp1 := List.mem_of_mem_take hp
    have hp2 := (mem_sortD (fun p : String × ℝ => p.2) _ p).mp hp1
    have := List.of_mem_filter hp2
    simpa using this
  · rw [hr, List.length_take]
    exact min_le_left _ _
  · rw [hr]
    exact List.Pairwise.sublist (List.take_sublist _ _) (pairwise_sortD _ _)
  · intro v
    rw [hr]
    have h1 : (((sortD (fun p : String × ℝ => p.2)
          ((docs.map (fun p => (p.1, bmScore k1 b docs q p.1))).filter
            (fun p => decide (0 < p.2)))).take K).filter (fun p => p.2 = v))
        <+: ((sortD (fun p : String × ℝ => p.2)
          ((docs.map (fun p => (p.1, bmScore k1 b docs q p.1))).filter
            (fun p => decide (0 < p.2)))).filter (fun p => p.2 = v)) :=
      (List.take_prefix K _).filter _
    have h2 : ((sortD (fun p : String × ℝ => p.2)
          ((docs.map (fun p => (p.1, bmScore k1 b docs q p.1))).filter
            (fun p => decide (0 < p.2)))).filter (fun p => p.2 = v))
        = (((docs.map (fun p => (p.1, bmScore k1 b docs q p.1))).filter
            (fun p => decide (0 < p.2))).filter (fun p => p.2 = v)) :=
      filter_sortD (fun p : String × ℝ => p.2) _ v
    rw [h2] at h1
    exact h1

end BugLoc
